import Mathlib

/-!
Verification of the voice-to-text transcript pipeline and tab store
implemented in `src/src/App.tsx`.

JavaScript strings are modeled as `List Char`; JS `undefined` (for the
active-tab id) is modeled by `Option`.  Timestamps are natural numbers
(milliseconds).  Every definition below is a direct translation of the
corresponding code in `App.tsx`; spec-phrased conditions appear only in
theorem statements.
-/

namespace VoiceToText

/-- JS strings, modeled as lists of characters. -/
abbrev JSString := List Char

/-- JS `s.endsWith(suf)`. -/
def jsEndsWith (s suf : JSString) : Bool := decide (suf <:+ s)

/-- JS `s.startsWith(pre)`. -/
def jsStartsWith (s pre : JSString) : Bool := decide (pre <+: s)

/-- JS `s.trim()` (whitespace stripped from both ends). -/
def jsTrim (s : JSString) : JSString :=
  ((s.dropWhile Char.isWhitespace).reverse.dropWhile Char.isWhitespace).reverse

/-- The `DICTATION_COMMANDS` table (App.tsx lines 14-32), in source order. -/
def DICTATION_COMMANDS : List (JSString × JSString) := [
  ("period".toList, ".".toList),
  ("comma".toList, ",".toList),
  ("question mark".toList, "?".toList),
  ("colon".toList, ":".toList),
  ("semi colon".toList, ";".toList),
  ("semicolon".toList, ";".toList),
  ("exclamation mark".toList, "!".toList),
  ("exclamation point".toList, "!".toList),
  ("dash".toList, "-".toList),
  ("hyphen".toList, "-".toList),
  ("new line".toList, "\n".toList),
  ("new paragraph".toList, "\n\n".toList),
  ("open parentheses".toList, "(".toList),
  ("close parentheses".toList, ")".toList),
  ("smiley".toList, ":-)".toList),
  ("smiley face".toList, ":-)".toList),
  ("sad face".toList, ":-(".toList)]

/-- The property names of `Object.prototype`.  `DICTATION_COMMANDS` is a
plain object literal, so the index access `DICTATION_COMMANDS[x]` falls
back to the prototype chain: for these names it yields a truthy
non-string value (a function, or the prototype object for `__proto__`)
instead of `undefined`. -/
def OBJECT_PROTOTYPE_KEYS : List JSString := [
  "constructor".toList,
  "hasOwnProperty".toList,
  "isPrototypeOf".toList,
  "propertyIsEnumerable".toList,
  "toLocaleString".toList,
  "toString".toList,
  "valueOf".toList,
  "__proto__".toList,
  "__defineGetter__".toList,
  "__defineSetter__".toList,
  "__lookupGetter__".toList,
  "__lookupSetter__".toList]

/-- Value of the JS property read `DICTATION_COMMANDS[x]`: an own
property (a string from the table literal), a truthy non-string value
inherited from `Object.prototype`, or `undefined`. -/
inductive JsPropValue where
  | str (v : JSString)
  | protoFn
  | undef
deriving DecidableEq

/-- `DICTATION_COMMANDS[phrase]` with JS object semantics: own
properties shadow the prototype; misses on own properties fall back to
`Object.prototype`. -/
def jsGetProp (phrase : JSString) : JsPropValue :=
  match DICTATION_COMMANDS.lookup phrase with
  | some v => JsPropValue.str v
  | none =>
    if phrase ∈ OBJECT_PROTOTYPE_KEYS then JsPropValue.protoFn
    else JsPropValue.undef

/-- Which branch of `recognition.onresult` a normalized utterance takes:
`command S` when the looked-up value is a truthy string `S`,
`commandErr` when it is a truthy non-string inherited from
`Object.prototype` (the command branch is entered and
`command.startsWith('\n')` then throws a TypeError), and `dictated`
when it is `undefined` (or an empty string, which is falsy). -/
inductive Utterance where
  | command (S : JSString)
  | commandErr
  | dictated (T : JSString)
deriving DecidableEq

/-- `const command = DICTATION_COMMANDS[transcriptText]; if (command)`
(App.tsx lines 128-129), with JS property-access and truthiness
semantics. -/
def classify (phrase : JSString) : Utterance :=
  match jsGetProp phrase with
  | JsPropValue.str v =>
    if v = [] then Utterance.dictated phrase else Utterance.command v
  | JsPropValue.protoFn => Utterance.commandErr
  | JsPropValue.undef => Utterance.dictated phrase

/-- Command branch of `recognition.onresult` (App.tsx lines 132-143),
acting on one tab's content. -/
def mergeCommand (content command : JSString) : JSString :=
  if jsStartsWith command "\n".toList && !content.isEmpty &&
      !jsEndsWith content " ".toList then
    content ++ " ".toList ++ command
  else if !content.isEmpty && jsEndsWith content " ".toList &&
      !decide (command = " ".toList) then
    content.dropLast ++ command ++ " ".toList
  else
    content ++ command ++ " ".toList

/-- `processedText.charAt(0).toUpperCase() + processedText.slice(1)`
(App.tsx line 157). -/
def capitalizeFirst : JSString → JSString
  | [] => []
  | c :: cs => c.toUpper :: cs

/-- Sentence-start test of the dictation branch (App.tsx lines 151-156):
content ends with `". "`, `"! "` or `"? "`, or is empty. -/
def isSentenceStart (content : JSString) : Bool :=
  jsEndsWith content ". ".toList || jsEndsWith content "! ".toList ||
  jsEndsWith content "? ".toList || content.isEmpty

/-- Dictation branch of `recognition.onresult` (App.tsx lines 149-166),
acting on one tab's content. -/
def mergeDictation (content transcriptText : JSString) : JSString :=
  let processedText :=
    if isSentenceStart content then capitalizeFirst transcriptText
    else transcriptText
  content ++
    (if !content.isEmpty && !jsEndsWith content " ".toList then " ".toList
     else []) ++
    processedText ++ " ".toList

/-- The full per-content voice-merge step: read the property, test its
truthiness, and run the matching branch of `recognition.onresult`.
`none` models the TypeError thrown at `command.startsWith('\n')` when
the transcript names an `Object.prototype` property: the handler aborts
and no content is produced. -/
def mergeUtterance (content transcriptText : JSString) : Option JSString :=
  match classify transcriptText with
  | Utterance.command command => some (mergeCommand content command)
  | Utterance.commandErr => none
  | Utterance.dictated T => some (mergeDictation content T)

/-- The `Tab` interface (App.tsx lines 4-8). -/
structure Tab where
  id : JSString
  title : JSString
  content : JSString
deriving DecidableEq

/-- The tab-related component state: the `tabs` list and `activeTabId`
(App.tsx lines 45, 59).  `activeTabId` is an `Option` because
`setActiveTabId(nextTabId)` in `closeTab` can in principle store JS
`undefined`; `none` models that value. -/
structure AppState where
  tabs : List Tab
  activeTabId : Option JSString
deriving DecidableEq

/-- The default initial state (App.tsx lines 56, 63): one tab with id
`'1'`, title `'Untitled 1'`, empty content, and active id `'1'`. -/
def initialState : AppState :=
  { tabs := [{ id := "1".toList, title := "Untitled 1".toList, content := [] }],
    activeTabId := some "1".toList }

/-- `addNewTab` (App.tsx lines 229-241).  The fresh id
`String(Date.now())` is an external input, passed as a parameter. -/
def addNewTab (s : AppState) (newTabId : JSString) : AppState :=
  { tabs := s.tabs ++
      [{ id := newTabId,
         title := "Untitled ".toList ++ (toString (s.tabs.length + 1)).toList,
         content := [] }],
    activeTabId := some newTabId }

/-- JS `tabs.findIndex(tab => tab.id === tabId)`: first matching index,
`-1` when absent. -/
def jsFindIndex (tabs : List Tab) (tabId : JSString) : Int :=
  match tabs.findIdx? (fun tab => decide (tab.id = tabId)) with
  | some n => (n : Int)
  | none => -1

/-- JS `tabs[i]?`: `undefined` for a negative or out-of-range index. -/
def jsIndex (tabs : List Tab) (i : Int) : Option Tab :=
  if 0 ≤ i then tabs.get? i.toNat else none

/-- JS `a?.id || b?.id`: both `undefined` and the empty string are falsy,
so an empty-string id on the left falls through to the right operand. -/
def jsOrId (a b : Option JSString) : Option JSString :=
  match a with
  | some s => if s = [] then b else some s
  | none => b

/-- `closeTab` (App.tsx lines 243-255): no-op when a single tab remains;
otherwise filter the tab out and, when it was active, fall back to
`tabs[tabIndex - 1]?.id || tabs[tabIndex + 1]?.id` computed on the
pre-close list. -/
def closeTab (s : AppState) (tabId : JSString) : AppState :=
  if s.tabs.length = 1 then s
  else
    { tabs := s.tabs.filter (fun tab => decide (¬ tab.id = tabId)),
      activeTabId :=
        if s.activeTabId = some tabId then
          jsOrId ((jsIndex s.tabs (jsFindIndex s.tabs tabId - 1)).map Tab.id)
                 ((jsIndex s.tabs (jsFindIndex s.tabs tabId + 1)).map Tab.id)
        else s.activeTabId }

/-- `finishEditingTitle` applied to tab `tabId` with the edited value
(App.tsx lines 267-279): trimmed title, falling back to `'Untitled'`. -/
def renameTab (s : AppState) (tabId newTitle : JSString) : AppState :=
  { s with tabs := s.tabs.map (fun tab =>
      if tab.id = tabId then
        { tab with title :=
            if jsTrim newTitle = [] then "Untitled".toList else jsTrim newTitle }
      else tab) }

/-- `setActiveTabId(tabId)` as performed by `handleTabClick`
(App.tsx line 291). -/
def selectTab (s : AppState) (tabId : JSString) : AppState :=
  { s with activeTabId := some tabId }

/-- `updateActiveTabContent` with a literal value (App.tsx lines 210-223). -/
def updateActiveTabContent (s : AppState) (newContent : JSString) : AppState :=
  { s with tabs := s.tabs.map (fun tab =>
      if some tab.id = s.activeTabId then { tab with content := newContent }
      else tab) }

/-- `recognition.onresult` (App.tsx lines 119-171) acting on the tab
state, for a normalized transcript.  `activeTabRef.current` equals
`activeTabId` (it is synced by the effect at lines 67-69), so the active
id is read from the state at the moment the event is handled.  The
capitalization test reads `currentTab.content` (the first tab whose id
matches) while the append inside `setTabs` reads each matching tab's own
content, exactly as the source does.  `none` models the TypeError the
handler throws on an `Object.prototype` transcript: the `setTabs`
updater aborts and no tab is mutated. -/
def handleUtterance (s : AppState) (transcriptText : JSString) :
    Option AppState :=
  match s.tabs.find? (fun tab => decide (some tab.id = s.activeTabId)) with
  | none => some s
  | some currentTab =>
    match classify transcriptText with
    | Utterance.command command =>
        some { s with tabs := s.tabs.map (fun tab =>
            if some tab.id = s.activeTabId then
              { tab with content := mergeCommand tab.content command }
            else tab) }
    | Utterance.commandErr => none
    | Utterance.dictated _ =>
        let processedText :=
          if isSentenceStart currentTab.content then
            capitalizeFirst transcriptText
          else transcriptText
        some { s with tabs := s.tabs.map (fun tab =>
            if some tab.id = s.activeTabId then
              { tab with content := tab.content ++
                  (if !tab.content.isEmpty &&
                      !jsEndsWith tab.content " ".toList then " ".toList
                   else []) ++
                  processedText ++ " ".toList }
            else tab) }

/-- How the `tabs` cookie presents at initialization (App.tsx lines
45-57): absent, present but failing `JSON.parse` (the catch logs and
falls through to the default), or successfully parsed. -/
inductive TabsCookie where
  | absent
  | malformed
  | parsed (tabs : List Tab)

/-- The `useState` initializer for `tabs` (App.tsx lines 45-57). -/
def initialTabs : TabsCookie → List Tab
  | TabsCookie.parsed tabs => tabs
  | _ => [{ id := "1".toList, title := "Untitled 1".toList, content := [] }]

/-- The full initialization (App.tsx lines 45-64): the `tabs` and
`activeTab` cookies are read independently, each with its own fallback;
a saved `activeTab` value is honored as-is even when the `tabs` cookie
is absent or malformed. -/
def initState (tc : TabsCookie) (savedActive : Option JSString) : AppState :=
  { tabs := initialTabs tc,
    activeTabId := some (match savedActive with
      | some v => v
      | none => "1".toList) }

/-- States reachable through the app's own operation, starting from the
default initial state.  Side conditions mirror the actual call sites:
`create` receives a fresh non-empty id (`String(Date.now())`; assumed
unique, which the code does not enforce within one millisecond), and
`select` is only triggered by clicking a rendered (hence existing) tab.
`restore` is initialization from a cookie pair the app itself persisted
(both cookies are written together at App.tsx lines 77-82 from one
state); initialization from an inconsistent pair — e.g. a malformed
`tabs` cookie beside a surviving `activeTab` cookie — is not reachable
this way and can break the invariant, see `C6_counterexample`. -/
inductive Reachable : AppState → Prop where
  | init : Reachable initialState
  | restore (s : AppState) (a : JSString) : Reachable s →
      s.activeTabId = some a →
      Reachable (initState (TabsCookie.parsed s.tabs) (some a))
  | create (s : AppState) (newTabId : JSString) : Reachable s →
      newTabId ∉ s.tabs.map Tab.id → newTabId ≠ [] →
      Reachable (addNewTab s newTabId)
  | close (s : AppState) (tabId : JSString) : Reachable s →
      Reachable (closeTab s tabId)
  | rename (s : AppState) (tabId newTitle : JSString) : Reachable s →
      Reachable (renameTab s tabId newTitle)
  | select (s : AppState) (tabId : JSString) : Reachable s →
      tabId ∈ s.tabs.map Tab.id → Reachable (selectTab s tabId)
  | update (s : AppState) (newContent : JSString) : Reachable s →
      Reachable (updateActiveTabContent s newContent)
  | voice (s s' : AppState) (transcriptText : JSString) : Reachable s →
      handleUtterance s transcriptText = some s' → Reachable s'

/-- State of the silence watchdog: the `showNoSpeechDetected` flag, the
`lastSpeechDetected` timestamp, and the expiry times of all
`setTimeout(() => setShowNoSpeechDetected(false), 3000)` timers that
have been scheduled but not yet fired (App.tsx lines 40-42). -/
structure WatchdogState where
  showNoSpeechDetected : Bool
  lastSpeechDetected : Nat
  pendingClears : List Nat
deriving DecidableEq

/-- Events processed while listening: a 1-second interval tick, a pending
3-second clear timer firing, and an utterance arriving. -/
inductive WatchdogEvent where
  | tick (now : Nat)
  | timerFire (now : Nat)
  | utterance (now : Nat)
deriving DecidableEq

/-- One event of the watchdog system.  `tick` is `checkSpeechDetection`
(App.tsx lines 87-94): whenever more than 5000 ms have passed since
`lastSpeechDetected` it sets the flag and schedules a clear 3000 ms
later, with no test of whether the flag is already set.  `timerFire` is
one scheduled clear firing.  `utterance` is the tail of
`recognition.onresult` (lines 169-170). -/
def watchdogStep (w : WatchdogState) (e : WatchdogEvent) : WatchdogState :=
  match e with
  | WatchdogEvent.tick now =>
      if now - w.lastSpeechDetected > 5000 then
        { w with showNoSpeechDetected := true,
                 pendingClears := w.pendingClears ++ [now + 3000] }
      else w
  | WatchdogEvent.timerFire now =>
      if now ∈ w.pendingClears then
        { w with showNoSpeechDetected := false,
                 pendingClears := w.pendingClears.erase now }
      else w
  | WatchdogEvent.utterance now =>
      { w with showNoSpeechDetected := false, lastSpeechDetected := now }

/-- Folding a list of events over the watchdog state. -/
def watchdogRun (w : WatchdogState) (es : List WatchdogEvent) : WatchdogState :=
  es.foldl watchdogStep w

/-- Watchdog state right after `toggleListening` starts listening at time
`startTime` (App.tsx lines 193-197): flag cleared, `lastSpeechDetected`
reset to now, no pending timers. -/
def watchdogInit (startTime : Nat) : WatchdogState :=
  { showNoSpeechDetected := false, lastSpeechDetected := startTime,
    pendingClears := [] }

/-- No two consecutive space characters anywhere in the string. -/
def noDoubleSpace (l : JSString) : Prop :=
  l.Chain' (fun a b => ¬ (a = ' ' ∧ b = ' '))

/-- Structural decision procedure for `noDoubleSpace`, so that concrete
instances reduce under kernel evaluation. -/
def noDoubleSpaceDec : (l : JSString) → Decidable (noDoubleSpace l)
  | [] => isTrue List.chain'_nil
  | [a] => isTrue (List.chain'_singleton a)
  | a :: b :: rest =>
    if hab : a = ' ' ∧ b = ' ' then
      isFalse (fun hc => (List.chain'_cons.mp hc).1 hab)
    else
      match noDoubleSpaceDec (b :: rest) with
      | isTrue h => isTrue (List.chain'_cons.mpr ⟨hab, h⟩)
      | isFalse h => isFalse (fun hc => h (List.chain'_cons.mp hc).2)

instance (priority := 1100) : DecidablePred noDoubleSpace := noDoubleSpaceDec

/-- Well-formedness of the tab store as maintained by the app: pairwise
distinct non-empty ids, and an active id that resolves to a tab in the
sequence. -/
def StoreWF (s : AppState) : Prop :=
  (s.tabs.map Tab.id).Nodup ∧ (∀ u ∈ s.tabs, u.id ≠ []) ∧
  ∃ u ∈ s.tabs, s.activeTabId = some u.id

/-- A sample tab, used to instantiate store theorems. -/
def sampleTabA : Tab :=
  { id := "1".toList, title := "Untitled 1".toList, content := [] }

/-- A second sample tab. -/
def sampleTabB : Tab :=
  { id := "2".toList, title := "Untitled 2".toList, content := [] }

/-- A sample two-tab store with the second tab active. -/
def sampleState : AppState :=
  { tabs := [sampleTabA, sampleTabB], activeTabId := some "2".toList }

theorem jsEndsWith_eq_true_iff (s suf : JSString) :
    jsEndsWith s suf = true ↔ suf <:+ s := by
  simp [jsEndsWith]

theorem jsStartsWith_eq_true_iff (s p : JSString) :
    jsStartsWith s p = true ↔ p <+: s := by
  simp [jsStartsWith]

theorem suffix_singleton_iff (l : List Char) (c : Char) :
    [c] <:+ l ↔ l.getLast? = some c := by
  rw [List.getLast?_eq_some_iff]
  constructor
  · rintro ⟨t, ht⟩
    exact ⟨t, ht.symm⟩
  · rintro ⟨t, ht⟩
    exact ⟨t, ht.symm⟩

theorem prefix_singleton_iff (l : List Char) (c : Char) :
    [c] <+: l ↔ l.head? = some c := by
  rw [List.head?_eq_some_iff]
  constructor
  · rintro ⟨t, ht⟩
    exact ⟨t, ht.symm⟩
  · rintro ⟨t, ht⟩
    exact ⟨t, ht.symm⟩

theorem dictation_commands_keys_nodup :
    (DICTATION_COMMANDS.map Prod.fst).Nodup := by decide

theorem dictation_commands_value_facts :
    ∀ p ∈ DICTATION_COMMANDS, p.2 ≠ [] ∧ ¬ p.2.head? = some ' ' ∧
      ¬ p.2.getLast? = some ' ' ∧ p.2 ≠ [' '] ∧
      (p.2.head? = some '\n' ↔ p.2.getLast? = some '\n') ∧
      noDoubleSpace p.2 := by decide

theorem lookup_eq_some_mem {l : List (JSString × JSString)} {k v : JSString}
    (h : l.lookup k = some v) : (k, v) ∈ l := by
  induction l with
  | nil => simp at h
  | cons p es ih =>
    obtain ⟨a, b⟩ := p
    rw [List.lookup_cons] at h
    by_cases hk : k = a
    · subst hk
      simp only [beq_self_eq_true] at h
      cases h
      exact List.mem_cons_self _ _
    · rw [beq_false_of_ne hk] at h
      exact List.mem_cons_of_mem _ (ih h)

theorem mem_lookup_eq_some {l : List (JSString × JSString)} {k v : JSString}
    (hnd : (l.map Prod.fst).Nodup) (h : (k, v) ∈ l) : l.lookup k = some v := by
  induction l with
  | nil => simp at h
  | cons p es ih =>
    obtain ⟨a, b⟩ := p
    rw [List.map_cons, List.nodup_cons] at hnd
    rw [List.lookup_cons]
    rcases List.mem_cons.mp h with heq | hmem
    · cases heq
      simp
    · by_cases hk : k = a
      · exact absurd (List.mem_map.mpr ⟨(k, v), hmem, hk ▸ rfl⟩) hnd.1
      · rw [beq_false_of_ne hk]
        exact ih hnd.2 hmem

theorem lookup_eq_none_of_key_not_mem {l : List (JSString × JSString)}
    {k : JSString} (h : k ∉ l.map Prod.fst) : l.lookup k = none := by
  induction l with
  | nil => rfl
  | cons p es ih =>
    obtain ⟨a, b⟩ := p
    simp only [List.map_cons, List.mem_cons, not_or] at h
    rw [List.lookup_cons, beq_false_of_ne h.1]
    exact ih h.2

theorem jsEndsWith_space_eq_true (content : JSString)
    (h : content.getLast? = some ' ') : jsEndsWith content [' '] = true := by
  rw [jsEndsWith_eq_true_iff, suffix_singleton_iff]
  exact h

theorem jsEndsWith_space_eq_false (content : JSString)
    (h : ¬ content.getLast? = some ' ') : jsEndsWith content [' '] = false := by
  rw [← Bool.not_eq_true, jsEndsWith_eq_true_iff, suffix_singleton_iff]
  exact h

theorem isSentenceStart_iff (content : JSString) :
    isSentenceStart content = true ↔
      (content = [] ∨ ". ".toList <:+ content ∨ "! ".toList <:+ content ∨
        "? ".toList <:+ content) := by
  simp only [isSentenceStart, Bool.or_eq_true, jsEndsWith_eq_true_iff,
    List.isEmpty_iff]
  tauto

/-- A successful own-property lookup classifies as a command (table
values are non-empty, hence truthy). -/
theorem classify_of_lookup {phrase S : JSString}
    (h : DICTATION_COMMANDS.lookup phrase = some S) :
    classify phrase = Utterance.command S := by
  have hfacts : S ≠ [] ∧ ¬ S.head? = some ' ' ∧ ¬ S.getLast? = some ' ' ∧
      S ≠ [' '] ∧ (S.head? = some '\n' ↔ S.getLast? = some '\n') ∧
      noDoubleSpace S :=
    dictation_commands_value_facts (phrase, S) (lookup_eq_some_mem h)
  simp [classify, jsGetProp, h, hfacts.1]

/-- A non-key phrase naming an `Object.prototype` property takes the
command branch with a truthy non-string value. -/
theorem classify_of_proto {phrase : JSString}
    (h1 : DICTATION_COMMANDS.lookup phrase = none)
    (h2 : phrase ∈ OBJECT_PROTOTYPE_KEYS) :
    classify phrase = Utterance.commandErr := by
  simp [classify, jsGetProp, h1, h2]

/-- A phrase that is neither a table key nor a prototype property is
dictated. -/
theorem classify_of_undef {phrase : JSString}
    (h1 : DICTATION_COMMANDS.lookup phrase = none)
    (h2 : phrase ∉ OBJECT_PROTOTYPE_KEYS) :
    classify phrase = Utterance.dictated phrase := by
  simp [classify, jsGetProp, h1, h2]

/-- C4 counterexample: the table is a plain object literal, so the index
access falls back to `Object.prototype`: the non-key phrase
`'constructor'` yields a truthy function, the command branch is taken
and `command.startsWith` then throws — the phrase is not classified as
dictated, refuting exact-match-only classification and the absence of a
failure case. -/
theorem C4_counterexample :
    classify "constructor".toList = Utterance.commandErr ∧
    ¬ classify "constructor".toList =
        Utterance.dictated "constructor".toList ∧
    "constructor".toList ∉ DICTATION_COMMANDS.map Prod.fst := by decide

/-- C4 amended: classification returns `command S` exactly for the own
table entries; a non-key phrase that names an `Object.prototype`
property takes the command branch with a non-string value and the
handler throws a TypeError; every other phrase — including any phrase
merely containing a key as a substring — is classified as dictated. -/
theorem C4_amended_classifier (phrase : JSString) :
    (∀ S, classify phrase = Utterance.command S ↔
      (phrase, S) ∈ DICTATION_COMMANDS) ∧
    (phrase ∉ DICTATION_COMMANDS.map Prod.fst →
      phrase ∈ OBJECT_PROTOTYPE_KEYS →
      classify phrase = Utterance.commandErr) ∧
    (phrase ∉ DICTATION_COMMANDS.map Prod.fst →
      phrase ∉ OBJECT_PROTOTYPE_KEYS →
      classify phrase = Utterance.dictated phrase) := by
  refine ⟨?_, ?_, ?_⟩
  · intro S
    constructor
    · intro hcl
      cases hl : DICTATION_COMMANDS.lookup phrase with
      | some v =>
        rw [classify_of_lookup hl] at hcl
        cases hcl
        exact lookup_eq_some_mem hl
      | none =>
        by_cases hp : phrase ∈ OBJECT_PROTOTYPE_KEYS
        · rw [classify_of_proto hl hp] at hcl
          cases hcl
        · rw [classify_of_undef hl hp] at hcl
          cases hcl
    · intro hmem
      exact classify_of_lookup
        (mem_lookup_eq_some dictation_commands_keys_nodup hmem)
  · intro hk hp
    exact classify_of_proto (lookup_eq_none_of_key_not_mem hk) hp
  · intro hk hp
    exact classify_of_undef (lookup_eq_none_of_key_not_mem hk) hp

/-- Witness for the amended C4 at concrete phrases. -/
theorem C4_amended_classifier_witness :
    classify "period".toList = Utterance.command ".".toList ∧
    classify "constructor".toList = Utterance.commandErr ∧
    classify "say period".toList = Utterance.dictated "say period".toList :=
  ⟨((C4_amended_classifier "period".toList).1 ".".toList).mpr (by decide),
   (C4_amended_classifier "constructor".toList).2.1 (by decide) (by decide),
   (C4_amended_classifier "say period".toList).2.2 (by decide) (by decide)⟩

/-- C1 counterexample: merging the command `'new line'` into empty content
yields `'\n '` with a trailing space, not `'\n'` as the claim states; the
empty content falls through to the generic punctuation branch, which
always appends a space. -/
theorem C1_counterexample :
    mergeUtterance [] "new line".toList = some "\n ".toList ∧
    ¬ mergeUtterance [] "new line".toList = some "\n".toList := by decide

/-- C1 amended: for a substitution `S` beginning with a line break, only
the case of non-empty content not ending in a space gets the dedicated
treatment (one inserted space, no trailing space); content that is empty
or ends with a space falls through to the generic punctuation rule,
which appends one trailing space after `S`. -/
theorem C1_amended_linebreak_merge (content S : JSString)
    (h : S.head? = some '\n') :
    (content ≠ [] → ¬ content.getLast? = some ' ' →
      mergeCommand content S = content ++ [' '] ++ S) ∧
    (content.getLast? = some ' ' →
      mergeCommand content S = content.dropLast ++ S ++ [' ']) ∧
    (content = [] → mergeCommand content S = S ++ [' ']) ∧
    mergeUtterance "Hello".toList "new line".toList =
      some "Hello \n".toList ∧
    mergeUtterance [] "new line".toList = some "\n ".toList := by
  have hS : jsStartsWith S ['\n'] = true := by
    rw [jsStartsWith_eq_true_iff, prefix_singleton_iff]
    exact h
  have hSne : ¬ S = [' '] := by
    rintro rfl
    simp at h
  refine ⟨?_, ?_, ?_, by decide, by decide⟩
  · intro hne hlast
    have h1 : content.isEmpty = false := by
      simpa [List.isEmpty_iff] using hne
    have h2 : jsEndsWith content [' '] = false := by
      rw [← Bool.not_eq_true, jsEndsWith_eq_true_iff, suffix_singleton_iff]
      exact hlast
    simp [mergeCommand, hS, h1, h2]
  · intro hlast
    have hne : content ≠ [] := by
      rintro rfl
      simp at hlast
    have h1 : content.isEmpty = false := by
      simpa [List.isEmpty_iff] using hne
    have h2 : jsEndsWith content [' '] = true := by
      rw [jsEndsWith_eq_true_iff, suffix_singleton_iff]
      exact hlast
    simp [mergeCommand, hS, h1, h2, hSne]
  · rintro rfl
    simp [mergeCommand]

/-- Witness for the amended C1 at concrete inputs. -/
theorem C1_amended_linebreak_merge_witness :
    mergeCommand "Hi".toList "\n".toList = "Hi".toList ++ [' '] ++ "\n".toList ∧
    mergeCommand "Hi ".toList "\n".toList =
      "Hi ".toList.dropLast ++ "\n".toList ++ [' '] ∧
    mergeCommand [] "\n\n".toList = "\n\n".toList ++ [' '] :=
  ⟨(C1_amended_linebreak_merge "Hi".toList "\n".toList (by decide)).1
      (by decide) (by decide),
   (C1_amended_linebreak_merge "Hi ".toList "\n".toList (by decide)).2.1
      (by decide),
   (C1_amended_linebreak_merge [] "\n\n".toList (by decide)).2.2.1 rfl⟩

/-- C9 counterexample: an empty dictated transcript is not a no-op; the
dictation branch still appends its separator and trailing space, so
content `'hello'` becomes `'hello  '`. -/
theorem C9_counterexample :
    mergeUtterance "hello".toList [] = some "hello  ".toList ∧
    ¬ mergeUtterance "hello".toList [] = some "hello".toList := by decide

/-- C9 amended: an empty dictated transcript appends whitespace only: one
space when the content is empty or already ends with a space, two spaces
otherwise. -/
theorem C9_amended_empty_transcript (content : JSString) :
    (content = [] ∨ content.getLast? = some ' ' →
      mergeUtterance content [] = some (content ++ [' '])) ∧
    (content ≠ [] → ¬ content.getLast? = some ' ' →
      mergeUtterance content [] = some (content ++ [' ', ' '])) := by
  have hcl : classify ([] : JSString) = Utterance.dictated [] := by decide
  constructor
  · rintro (rfl | hlast)
    · decide
    · have h2 : jsEndsWith content [' '] = true := by
        rw [jsEndsWith_eq_true_iff, suffix_singleton_iff]
        exact hlast
      simp [mergeUtterance, hcl, mergeDictation, h2, capitalizeFirst]
  · intro hne hlast
    have h1 : content.isEmpty = false := by
      simpa [List.isEmpty_iff] using hne
    have h2 : jsEndsWith content [' '] = false := by
      rw [← Bool.not_eq_true, jsEndsWith_eq_true_iff, suffix_singleton_iff]
      exact hlast
    simp [mergeUtterance, hcl, mergeDictation, h1, h2, capitalizeFirst]

/-- Witness for the amended C9 at concrete contents. -/
theorem C9_amended_empty_transcript_witness :
    mergeUtterance "hi ".toList [] = some ("hi ".toList ++ [' ']) ∧
    mergeUtterance "hi".toList [] = some ("hi".toList ++ [' ', ' ']) :=
  ⟨(C9_amended_empty_transcript "hi ".toList).1 (Or.inr (by decide)),
   (C9_amended_empty_transcript "hi".toList).2 (by decide) (by decide)⟩

/-- C7 counterexample: the watchdog tick has no "no warning active" guard.
Starting to listen at time 0 with no utterances: the tick at 6000 raises
the warning; the tick at 7000, issued while the warning is active, still
changes the state (it re-raises and schedules another 3-second clear);
and on the continued-silence trace the clear scheduled by the tick at
7000 fires at 10000, turning the flag off only 1 second after the tick
at 9000 re-raised it — the warning does not stay for 3 seconds. -/
theorem C7_counterexample :
    (watchdogRun (watchdogInit 0)
      [WatchdogEvent.tick 6000]).showNoSpeechDetected = true ∧
    ¬ watchdogRun (watchdogInit 0)
        [WatchdogEvent.tick 6000, WatchdogEvent.tick 7000] =
      watchdogRun (watchdogInit 0) [WatchdogEvent.tick 6000] ∧
    (watchdogRun (watchdogInit 0)
      [WatchdogEvent.tick 6000, WatchdogEvent.tick 7000,
       WatchdogEvent.tick 8000, WatchdogEvent.timerFire 9000,
       WatchdogEvent.tick 9000,
       WatchdogEvent.timerFire 10000]).showNoSpeechDetected = false := by
  decide

/-- C7 amended: every tick with more than 5 seconds of silence raises the
warning and schedules one more 3-second clear, whether or not a warning
is already active; a tick within the 5-second window changes nothing;
any scheduled clear turns the flag off when it fires. -/
theorem C7_amended_watchdog (w : WatchdogState) (now t : Nat) :
    (now - w.lastSpeechDetected > 5000 →
      watchdogStep w (WatchdogEvent.tick now) =
        { w with showNoSpeechDetected := true,
                 pendingClears := w.pendingClears ++ [now + 3000] }) ∧
    (¬ now - w.lastSpeechDetected > 5000 →
      watchdogStep w (WatchdogEvent.tick now) = w) ∧
    (t ∈ w.pendingClears →
      (watchdogStep w (WatchdogEvent.timerFire t)).showNoSpeechDetected =
        false) := by
  refine ⟨?_, ?_, ?_⟩ <;> intro h <;> simp [watchdogStep, h]

/-- Witness for the amended C7 at concrete watchdog states. -/
theorem C7_amended_watchdog_witness :
    watchdogStep (watchdogInit 0) (WatchdogEvent.tick 6000) =
      { watchdogInit 0 with showNoSpeechDetected := true,
                            pendingClears :=
                              (watchdogInit 0).pendingClears ++ [6000 + 3000] } ∧
    watchdogStep (watchdogInit 0) (WatchdogEvent.tick 1000) = watchdogInit 0 ∧
    (watchdogStep { watchdogInit 0 with pendingClears := [9000] }
      (WatchdogEvent.timerFire 9000)).showNoSpeechDetected = false :=
  ⟨(C7_amended_watchdog (watchdogInit 0) 6000 0).1 (by decide),
   (C7_amended_watchdog (watchdogInit 0) 1000 0).2.1 (by decide),
   (C7_amended_watchdog { watchdogInit 0 with pendingClears := [9000] }
      0 9000).2.2 (by decide)⟩

/-- C2: the first character of a dictated transcript is capitalized
exactly when the content is empty or ends with `'. '`, `'! '` or `'? '`;
otherwise the transcript is appended lower-case as received; including
the two concrete examples from the spec. -/
theorem C2_dictation_capitalization (content T : JSString) :
    (content = [] ∨ ". ".toList <:+ content ∨ "! ".toList <:+ content ∨
        "? ".toList <:+ content →
      mergeDictation content T =
        content ++
          (if content = [] ∨ content.getLast? = some ' ' then [] else [' ']) ++
          capitalizeFirst T ++ [' ']) ∧
    (¬ (content = [] ∨ ". ".toList <:+ content ∨ "! ".toList <:+ content ∨
        "? ".toList <:+ content) →
      mergeDictation content T =
        content ++
          (if content = [] ∨ content.getLast? = some ' ' then [] else [' ']) ++
          T ++ [' ']) ∧
    mergeUtterance [] "hello world".toList = some "Hello world ".toList ∧
    mergeUtterance "Hello world ".toList "hello world".toList =
      some "Hello world hello world ".toList := by
  have key : mergeDictation content T =
      content ++
        (if content = [] ∨ content.getLast? = some ' ' then [] else [' ']) ++
        (if content = [] ∨ ". ".toList <:+ content ∨ "! ".toList <:+ content ∨
            "? ".toList <:+ content
         then capitalizeFirst T else T) ++ [' '] := by
    by_cases h1 : content = []
    · subst h1
      simp [mergeDictation, isSentenceStart]
    · have h1' : content.isEmpty = false := by
        simpa [List.isEmpty_iff] using h1
      by_cases hss : isSentenceStart content = true
      · have hc := (isSentenceStart_iff content).mp hss
        have hc2 : ['.', ' '] <:+ content ∨ ['!', ' '] <:+ content ∨
            ['?', ' '] <:+ content := by
          rcases hc with hcon | hh | hh | hh
          exacts [absurd hcon h1, Or.inl hh, Or.inr (Or.inl hh),
            Or.inr (Or.inr hh)]
        by_cases h2 : content.getLast? = some ' '
        · simp [mergeDictation, hss, h1', jsEndsWith_space_eq_true content h2,
            h1, h2, hc2]
        · simp [mergeDictation, hss, h1', jsEndsWith_space_eq_false content h2,
            h1, h2, hc2]
      · have hss' : isSentenceStart content = false := by
          simpa using hss
        have hc : ¬ (content = [] ∨ ". ".toList <:+ content ∨
            "! ".toList <:+ content ∨ "? ".toList <:+ content) :=
          fun hcon => hss ((isSentenceStart_iff content).mpr hcon)
        have hc2 : ¬ (['.', ' '] <:+ content ∨ ['!', ' '] <:+ content ∨
            ['?', ' '] <:+ content) := by
          rintro (hh | hh | hh)
          exacts [hc (Or.inr (Or.inl hh)), hc (Or.inr (Or.inr (Or.inl hh))),
            hc (Or.inr (Or.inr (Or.inr hh)))]
        by_cases h2 : content.getLast? = some ' '
        · simp [mergeDictation, hss', h1', jsEndsWith_space_eq_true content h2,
            h1, h2, hc2]
        · simp [mergeDictation, hss', h1', jsEndsWith_space_eq_false content h2,
            h1, h2, hc2]
  refine ⟨?_, ?_, by decide, by decide⟩
  · intro hc
    rw [key, if_pos hc]
  · intro hc
    rw [key, if_neg hc]

/-- Witness for C2 at concrete inputs: sentence start after `'Hi. '`,
plain append after `'Hi'`. -/
theorem C2_dictation_capitalization_witness :
    mergeDictation "Hi. ".toList "ok".toList =
      "Hi. ".toList ++
        (if ("Hi. ".toList : JSString) = [] ∨
            "Hi. ".toList.getLast? = some ' ' then [] else [' ']) ++
        capitalizeFirst "ok".toList ++ [' '] ∧
    mergeDictation "Hi".toList "ok".toList =
      "Hi".toList ++
        (if ("Hi".toList : JSString) = [] ∨
            "Hi".toList.getLast? = some ' ' then [] else [' ']) ++
        "ok".toList ++ [' '] :=
  ⟨(C2_dictation_capitalization "Hi. ".toList "ok".toList).1
     (Or.inr (Or.inl (by decide))),
   (C2_dictation_capitalization "Hi".toList "ok".toList).2.1 (by decide)⟩

/-- Junction safety: appending a non-empty block that neither starts nor
ends with a space, followed by one space, preserves the absence of
double spaces. -/
theorem noDoubleSpace_append_block (A S : JSString) (hA : noDoubleSpace A)
    (hS : noDoubleSpace S) (hSne : S ≠ [])
    (hhead : ¬ S.head? = some ' ') (hlast : ¬ S.getLast? = some ' ') :
    noDoubleSpace (A ++ S ++ [' ']) := by
  unfold noDoubleSpace at hA hS ⊢
  rw [List.append_assoc, List.chain'_append]
  refine ⟨hA, ?_, ?_⟩
  · rw [List.chain'_append]
    refine ⟨hS, List.chain'_singleton ' ', ?_⟩
    intro x hx y hy
    simp only [List.head?_cons, Option.mem_def, Option.some.injEq] at hy
    subst hy
    rintro ⟨hxs, -⟩
    exact hlast (by rw [Option.mem_def.mp hx, hxs])
  · intro x hx y hy
    rcases List.exists_cons_of_ne_nil hSne with ⟨c, cs, rfl⟩
    simp only [List.cons_append, List.head?_cons, Option.mem_def,
      Option.some.injEq] at hy
    subst hy
    rintro ⟨-, hcs⟩
    exact hhead (by simp [hcs])

/-- Dropping the last character preserves the absence of double spaces. -/
theorem noDoubleSpace_dropLast (l : JSString) (h : noDoubleSpace l) :
    noDoubleSpace l.dropLast := by
  unfold noDoubleSpace at h ⊢
  exact List.Chain'.prefix h ( List.dropLast_prefix l)

/-- C3: a command substitution not beginning with a line break attaches to
the preceding word: a trailing space of the content is removed before the
substitution, one space follows it, and no double space arises at the
junction; including the concrete example. -/
theorem C3_punctuation_attachment (content key S : JSString)
    (hmem : (key, S) ∈ DICTATION_COMMANDS) (hnl : ¬ S.head? = some '\n') :
    (content.getLast? = some ' ' →
      mergeCommand content S = content.dropLast ++ S ++ [' ']) ∧
    (¬ content.getLast? = some ' ' →
      mergeCommand content S = content ++ S ++ [' ']) ∧
    (noDoubleSpace content → noDoubleSpace (mergeCommand content S)) ∧
    mergeUtterance "Hello world ".toList "period".toList =
      some "Hello world. ".toList := by
  have hfacts : S ≠ [] ∧ ¬ S.head? = some ' ' ∧ ¬ S.getLast? = some ' ' ∧
      S ≠ [' '] ∧ (S.head? = some '\n' ↔ S.getLast? = some '\n') ∧
      noDoubleSpace S :=
    dictation_commands_value_facts (key, S) hmem
  obtain ⟨hSnil, hShead, hSlast, hSsp, -, hSnds⟩ := hfacts
  have hstart : jsStartsWith S ['\n'] = false := by
    rw [← Bool.not_eq_true, jsStartsWith_eq_true_iff, prefix_singleton_iff]
    exact hnl
  have e1 : content.getLast? = some ' ' →
      mergeCommand content S = content.dropLast ++ S ++ [' '] := by
    intro hl
    have hne : content ≠ [] := by
      rintro rfl
      simp at hl
    have h1 : content.isEmpty = false := by
      simpa [List.isEmpty_iff] using hne
    simp [mergeCommand, hstart, h1, jsEndsWith_space_eq_true content hl, hSsp]
  have e2 : ¬ content.getLast? = some ' ' →
      mergeCommand content S = content ++ S ++ [' '] := by
    intro hl
    simp [mergeCommand, hstart, jsEndsWith_space_eq_false content hl]
  refine ⟨e1, e2, ?_, by decide⟩
  intro hnds
  by_cases hl : content.getLast? = some ' '
  · rw [e1 hl]
    exact noDoubleSpace_append_block _ _
      (noDoubleSpace_dropLast content hnds)
      hSnds hSnil hShead hSlast
  · rw [e2 hl]
    exact noDoubleSpace_append_block _ _ hnds hSnds hSnil hShead hSlast

/-- Witness for C3 at concrete inputs. -/
theorem C3_punctuation_attachment_witness :
    mergeCommand "Hello world ".toList ".".toList =
      "Hello world ".toList.dropLast ++ ".".toList ++ [' '] ∧
    mergeCommand "Hi".toList ",".toList = "Hi".toList ++ ",".toList ++ [' '] ∧
    noDoubleSpace (mergeCommand "Hi there ".toList ":-)".toList) :=
  ⟨(C3_punctuation_attachment "Hello world ".toList "period".toList
      ".".toList (by decide) (by decide)).1 (by decide),
   (C3_punctuation_attachment "Hi".toList "comma".toList
      ",".toList (by decide) (by decide)).2.1 (by decide),
   (C3_punctuation_attachment "Hi there ".toList "smiley".toList
      ":-)".toList (by decide) (by decide)).2.2.1 (by decide)⟩

/-- The dictation branch always produces content ending in one space. -/
theorem mergeDictation_getLast (content T : JSString) :
    (mergeDictation content T).getLast? = some ' ' := by
  simp [mergeDictation]

/-- C10 counterexample: the non-empty transcript `'constructor'` names
an `Object.prototype` property, so the merge step throws instead of
producing content ending in a space or newline. -/
theorem C10_counterexample :
    mergeUtterance "x".toList "constructor".toList = none ∧
    "constructor".toList ≠ ([] : JSString) := by decide

/-- C10 amended: for every non-empty normalized transcript on which the
merge step completes, the produced content is non-empty and ends with a
space or a newline — a newline exactly when the transcript is a
line-break command applied to non-empty content not ending in a space,
a single space in every other case; on a non-key transcript naming an
`Object.prototype` property the merge throws and produces no content. -/
theorem C10_merge_tail (content transcriptText : JSString)
    (h : transcriptText ≠ []) :
    (DICTATION_COMMANDS.lookup transcriptText = none →
      transcriptText ∈ OBJECT_PROTOTYPE_KEYS →
      mergeUtterance content transcriptText = none) ∧
    (∀ r, mergeUtterance content transcriptText = some r →
      r ≠ [] ∧
      (r.getLast? = some ' ' ∨ r.getLast? = some '\n') ∧
      (r.getLast? = some '\n' ↔
        (∃ S, DICTATION_COMMANDS.lookup transcriptText = some S ∧
            S.head? = some '\n') ∧
          content ≠ [] ∧ ¬ content.getLast? = some ' ')) := by
  cases hl : DICTATION_COMMANDS.lookup transcriptText with
  | none =>
    by_cases hp : transcriptText ∈ OBJECT_PROTOTYPE_KEYS
    · have hcl := classify_of_proto hl hp
      refine ⟨fun _ _ => by simp [mergeUtterance, hcl], ?_⟩
      intro r hr
      simp [mergeUtterance, hcl] at hr
    · have hcl := classify_of_undef hl hp
      refine ⟨fun _ hp2 => absurd hp2 hp, ?_⟩
      intro r hr
      have hr2 : mergeDictation content transcriptText = r := by
        simpa [mergeUtterance, hcl] using hr
      subst hr2
      have hg := mergeDictation_getLast content transcriptText
      refine ⟨?_, Or.inl hg, ?_⟩
      · intro hc
        rw [hc] at hg
        simp at hg
      · rw [hg]
        constructor
        · intro hc
          simp at hc
        · rintro ⟨⟨S, hS, -⟩, -, -⟩
          exact Option.noConfusion hS
  | some S =>
    have hmem := lookup_eq_some_mem hl
    have hfacts : S ≠ [] ∧ ¬ S.head? = some ' ' ∧ ¬ S.getLast? = some ' ' ∧
        S ≠ [' '] ∧ (S.head? = some '\n' ↔ S.getLast? = some '\n') ∧
        noDoubleSpace S :=
      dictation_commands_value_facts (transcriptText, S) hmem
    obtain ⟨hSnil, -, hSlast, hSsp, hSiff, -⟩ := hfacts
    have hcl := classify_of_lookup hl
    refine ⟨fun hc _ => Option.noConfusion hc, ?_⟩
    intro r hr
    have hr2 : mergeCommand content S = r := by
      simpa [mergeUtterance, hcl] using hr
    subst hr2
    by_cases hnlS : S.head? = some '\n'
    · by_cases hne : content = []
      · subst hne
        have hg : (mergeCommand [] S).getLast? = some ' ' := by
          rw [show mergeCommand [] S = S ++ [' '] from by simp [mergeCommand]]
          exact List.getLast?_concat _
        refine ⟨?_, Or.inl hg, ?_⟩
        · intro hc
          rw [hc] at hg
          simp at hg
        · rw [hg]
          constructor
          · intro hc
            simp at hc
          · rintro ⟨-, hc, -⟩
            exact absurd rfl hc
      · have h1 : content.isEmpty = false := by
          simpa [List.isEmpty_iff] using hne
        by_cases hsp : content.getLast? = some ' '
        · have hg : (mergeCommand content S).getLast? = some ' ' := by
            rw [show mergeCommand content S =
                content.dropLast ++ S ++ [' '] from by
              simp [mergeCommand, h1, jsEndsWith_space_eq_true content hsp,
                hSsp]]
            exact List.getLast?_concat _
          refine ⟨?_, Or.inl hg, ?_⟩
          · intro hc
            rw [hc] at hg
            simp at hg
          · rw [hg]
            constructor
            · intro hc
              simp at hc
            · rintro ⟨-, -, hc⟩
              exact absurd hsp hc
        · have hstart : jsStartsWith S ['\n'] = true := by
            rw [jsStartsWith_eq_true_iff, prefix_singleton_iff]
            exact hnlS
          have hres : mergeCommand content S = content ++ [' '] ++ S := by
            simp [mergeCommand, hstart, h1,
              jsEndsWith_space_eq_false content hsp]
          have hg : (mergeCommand content S).getLast? = some '\n' := by
            rw [hres, List.append_assoc,
              List.getLast?_append_of_ne_nil _ (by simp [hSnil]),
              List.getLast?_append_of_ne_nil _ hSnil]
            exact hSiff.mp hnlS
          refine ⟨?_, Or.inr hg, ?_⟩
          · intro hc
            rw [hc] at hg
            simp at hg
          · rw [hg]
            constructor
            · intro hc
              exact ⟨⟨S, rfl, hnlS⟩, hne, hsp⟩
            · intro hc
              rfl
    · have hstart : jsStartsWith S ['\n'] = false := by
        rw [← Bool.not_eq_true, jsStartsWith_eq_true_iff,
          prefix_singleton_iff]
        exact hnlS
      have hres : ∃ A, mergeCommand content S = A ++ S ++ [' '] := by
        by_cases hsp : content.getLast? = some ' '
        · have hne : content ≠ [] := by
            rintro rfl
            simp at hsp
          have h1 : content.isEmpty = false := by
            simpa [List.isEmpty_iff] using hne
          exact ⟨content.dropLast, by
            simp [mergeCommand, hstart, h1,
              jsEndsWith_space_eq_true content hsp, hSsp]⟩
        · exact ⟨content, by
            simp [mergeCommand, hstart,
              jsEndsWith_space_eq_false content hsp]⟩
      obtain ⟨A, hA⟩ := hres
      have hg : (mergeCommand content S).getLast? = some ' ' := by
        rw [hA]
        exact List.getLast?_concat _
      refine ⟨?_, Or.inl hg, ?_⟩
      · intro hc
        rw [hc] at hg
        simp at hg
      · rw [hg]
        constructor
        · intro hc
          simp at hc
        · rintro ⟨⟨S2, hS2, hhd⟩, -, -⟩
          have hSS : S2 = S := (Option.some.inj hS2).symm
          exact absurd (hSS ▸ hhd) hnlS

/-- Witness for the amended C10 at concrete inputs. -/
theorem C10_merge_tail_witness :
    mergeUtterance "x".toList "constructor".toList = none ∧
    "Hello \n".toList ≠ ([] : JSString) ∧
    ("Hello \n".toList : JSString).getLast? = some '\n' ∧
    ("Hello hi ".toList : JSString).getLast? = some ' ' := by
  refine ⟨?_, ?_, ?_, ?_⟩
  · exact (C10_merge_tail "x".toList "constructor".toList (by decide)).1
      (by decide) (by decide)
  · exact ((C10_merge_tail "Hello".toList "new line".toList (by decide)).2
      "Hello \n".toList (by decide)).1
  · exact ((C10_merge_tail "Hello".toList "new line".toList (by decide)).2
      "Hello \n".toList (by decide)).2.2.mpr
      ⟨⟨"\n".toList, by decide, by decide⟩, by decide, by decide⟩
  · rcases ((C10_merge_tail "Hello".toList "hi".toList (by decide)).2
      "Hello hi ".toList (by decide)).2.1 with hsp | hnl
    · exact hsp
    · exact absurd (((C10_merge_tail "Hello".toList "hi".toList
        (by decide)).2 "Hello hi ".toList (by decide)).2.2.mp hnl) (by decide)


/-- Behavior of `closeTab` on a store with several tabs, holding a tab
with the closed id: the tab is removed in place, and when it was active
the new active id is the left neighbor's when one exists, else the right
neighbor's. -/
theorem closeTab_spec (s : AppState) (pre post : List Tab) (t : Tab)
    (hs : s.tabs = pre ++ t :: post)
    (hnd : (s.tabs.map Tab.id).Nodup)
    (hids : ∀ u ∈ s.tabs, u.id ≠ [])
    (hlen : s.tabs.length ≠ 1) :
    (closeTab s t.id).tabs = pre ++ post ∧
    (¬ s.activeTabId = some t.id →
      (closeTab s t.id).activeTabId = s.activeTabId) ∧
    (s.activeTabId = some t.id →
      (closeTab s t.id).activeTabId =
        (match pre.getLast? with
         | some u => some u.id
         | none => post.head?.map Tab.id)) := by
  have hnd' := hnd
  rw [hs, List.map_append, List.map_cons, List.nodup_append] at hnd'
  have hpre : ∀ u ∈ pre, ¬ u.id = t.id := by
    intro u hu hc
    exact hnd'.2.2 (List.mem_map_of_mem Tab.id hu)
      (by rw [hc]; exact List.mem_cons_self _ _)
  have hpost : ∀ u ∈ post, ¬ u.id = t.id := by
    intro u hu hc
    exact (List.nodup_cons.mp hnd'.2.1).1
      (by rw [← hc]; exact List.mem_map_of_mem Tab.id hu)
  have hfilter : s.tabs.filter (fun tab => !decide (tab.id = t.id)) =
      pre ++ post := by
    rw [hs, List.filter_append]
    have h1 : pre.filter (fun tab => !decide (tab.id = t.id)) = pre :=
      List.filter_eq_self.mpr (fun u hu => by simpa using hpre u hu)
    have h2 : (t :: post).filter (fun tab => !decide (tab.id = t.id)) =
        post := by
      rw [List.filter_cons_of_neg (by simp)]
      exact List.filter_eq_self.mpr (fun u hu => by simpa using hpost u hu)
    rw [h1, h2]
  have hfind : jsFindIndex s.tabs t.id = (pre.length : Int) := by
    unfold jsFindIndex
    have h1 : pre.findIdx? (fun tab => decide (tab.id = t.id)) = none :=
      List.findIdx?_eq_none_iff.mpr (fun u hu => by simpa using hpre u hu)
    have h2 : (t :: post).findIdx? (fun tab => decide (tab.id = t.id)) =
        some 0 := by
      simp [List.findIdx?_cons]
    rw [hs, List.findIdx?_append, h1, h2]
    simp
  refine ⟨by simp [closeTab, hlen, hfilter], ?_, ?_⟩
  · intro hact
    simp [closeTab, hlen, hact]
  · intro hact
    have hclose : (closeTab s t.id).activeTabId =
        jsOrId ((jsIndex s.tabs ((pre.length : Int) - 1)).map Tab.id)
               ((jsIndex s.tabs ((pre.length : Int) + 1)).map Tab.id) := by
      simp [closeTab, hlen, hact, hfind]
    rw [hclose]
    cases hpe : pre.getLast? with
    | none =>
      have hpnil : pre = [] := by simpa using hpe
      subst hpnil
      have hleft : jsIndex s.tabs ((List.length ([] : List Tab) : Int) - 1) =
          none := by
        norm_num [jsIndex]
      have hright : jsIndex s.tabs ((List.length ([] : List Tab) : Int) + 1) =
          post.head? := by
        rw [jsIndex, if_pos (by norm_num)]
        rw [hs]
        cases post with
        | nil => rfl
        | cons a as => rfl
      rw [hleft, hright]
      rfl
    | some u =>
      have hu_mem : u ∈ pre := List.mem_of_getLast?_eq_some hpe
      have hpne : pre ≠ [] := by
        rintro rfl
        simp at hpe
      have hlen1 : 0 < pre.length := List.length_pos.mpr hpne
      have hleft : jsIndex s.tabs ((pre.length : Int) - 1) = some u := by
        rw [jsIndex, if_pos (by omega)]
        have htn : ((pre.length : Int) - 1).toNat = pre.length - 1 := by omega
        rw [htn, hs, List.get?_append (by omega), ← List.getLast?_eq_get?]
        exact hpe
      rw [hleft]
      have hune : u.id ≠ [] :=
        hids u (by rw [hs]; exact List.mem_append_left _ hu_mem)
      simp [jsOrId, hune]

/-- C5: closing a tab with several open removes exactly that tab in
place; if it was active, the active id falls back to the left neighbor
when one exists, else to the right neighbor; closing when only one tab
remains changes nothing. -/
theorem C5_closeTab_behavior (s : AppState) (pre post : List Tab) (t : Tab)
    (hs : s.tabs = pre ++ t :: post)
    (hnd : (s.tabs.map Tab.id).Nodup)
    (hids : ∀ u ∈ s.tabs, u.id ≠ []) :
    (s.tabs.length = 1 → closeTab s t.id = s) ∧
    (s.tabs.length ≠ 1 →
      (closeTab s t.id).tabs = pre ++ post ∧
      (¬ s.activeTabId = some t.id →
        (closeTab s t.id).activeTabId = s.activeTabId) ∧
      (s.activeTabId = some t.id →
        (closeTab s t.id).activeTabId =
          (match pre.getLast? with
           | some u => some u.id
           | none => post.head?.map Tab.id))) := by
  constructor
  · intro hlen
    simp [closeTab, hlen]
  · intro hlen
    exact closeTab_spec s pre post t hs hnd hids hlen

/-- Witness for C5: closing the active second tab of a two-tab store
falls back to the first tab. -/
theorem C5_closeTab_behavior_witness :
    (closeTab sampleState "2".toList).tabs = [sampleTabA] ++ [] ∧
    (closeTab sampleState "2".toList).activeTabId = some "1".toList := by
  have h := (C5_closeTab_behavior sampleState [sampleTabA] [] sampleTabB
    rfl (by decide) (by decide)).2 (by decide)
  exact ⟨h.1, (h.2.2 rfl).trans (by decide)⟩

/-- C8 counterexample: at the ordinary non-key transcript
`'constructor'` the handler enters the command branch with a prototype
value and throws inside the `setTabs` updater — no document is mutated,
refuting the claim for every utterance. -/
theorem C8_counterexample :
    handleUtterance (selectTab sampleState "1".toList)
      "constructor".toList = none ∧
    classify "constructor".toList = Utterance.commandErr ∧
    "constructor".toList ∉ DICTATION_COMMANDS.map Prod.fst := by decide

/-- C8 amended: the handler reads the active id from the state at the
moment the event is handled, never from a session-start snapshot: after
selecting tab `newId`, an utterance on which the handler completes
(command or dictation) rewrites exactly the newly active tab's content
through the matching merge branch, leaving every other tab's id, title,
content and position unchanged and the selection on the new tab; an
utterance naming an `Object.prototype` property makes the handler throw
before mutating anything. -/
theorem C8_fresh_active_resolution (s : AppState)
    (newId transcriptText : JSString)
    (hnd : (s.tabs.map Tab.id).Nodup)
    (hmem : newId ∈ s.tabs.map Tab.id) :
    (∀ S, classify transcriptText = Utterance.command S →
      ∃ s2, handleUtterance (selectTab s newId) transcriptText = some s2 ∧
        s2.tabs = s.tabs.map (fun u =>
          if u.id = newId then
            { u with content := mergeCommand u.content S }
          else u) ∧
        s2.activeTabId = some newId) ∧
    (classify transcriptText = Utterance.dictated transcriptText →
      ∃ s2, handleUtterance (selectTab s newId) transcriptText = some s2 ∧
        s2.tabs = s.tabs.map (fun u =>
          if u.id = newId then
            { u with content := mergeDictation u.content transcriptText }
          else u) ∧
        s2.activeTabId = some newId) ∧
    (classify transcriptText = Utterance.commandErr →
      handleUtterance (selectTab s newId) transcriptText = none) := by
  obtain ⟨u0, hu0⟩ : ∃ u,
      s.tabs.find? (fun tab => decide (some tab.id = some newId)) = some u := by
    have hsome :
        (s.tabs.find? (fun tab => decide (some tab.id = some newId))).isSome := by
      rw [List.find?_isSome]
      obtain ⟨u, hu, hid⟩ := List.mem_map.mp hmem
      exact ⟨u, hu, by simp [hid]⟩
    exact Option.isSome_iff_exists.mp hsome
  have hu0mem : u0 ∈ s.tabs := List.mem_of_find?_eq_some hu0
  have hu0id : u0.id = newId := by
    have := List.find?_some hu0
    simpa using this
  have huniq : ∀ u ∈ s.tabs, u.id = newId → u = u0 := by
    intro u hu hid
    exact List.inj_on_of_nodup_map hnd hu hu0mem (by rw [hid, hu0id])
  have hsel : selectTab s newId =
      { tabs := s.tabs, activeTabId := some newId } := rfl
  rw [hsel]
  unfold handleUtterance
  simp only [hu0]
  refine ⟨?_, ?_, ?_⟩
  · intro S hcl
    rw [hcl]
    refine ⟨_, rfl, ?_, rfl⟩
    refine List.map_congr_left ?_
    intro u hu
    by_cases hid : u.id = newId
    · simp [hid]
    · simp [hid]
  · intro hcl
    rw [hcl]
    refine ⟨_, rfl, ?_, rfl⟩
    refine List.map_congr_left ?_
    intro u hu
    by_cases hid : u.id = newId
    · have hequ : u = u0 := huniq u hu hid
      subst hequ
      simp [hid, mergeDictation]
    · simp [hid]
  · intro hcl
    rw [hcl]

/-- Witness for the amended C8: selecting the first tab of the sample
store and dictating mutates only that tab and keeps it selected. -/
theorem C8_fresh_active_resolution_witness :
    ∃ s2, handleUtterance (selectTab sampleState "1".toList) "hi".toList =
        some s2 ∧
      s2.tabs = sampleState.tabs.map (fun u =>
        if u.id = "1".toList then
          { u with content := mergeDictation u.content "hi".toList }
        else u) ∧
      s2.activeTabId = some "1".toList :=
  (C8_fresh_active_resolution sampleState "1".toList "hi".toList
    (by decide) (by decide)).2.1 (by decide)


/-- Mapping an id-preserving function over the tabs keeps the store
well-formed. -/
theorem storeWF_map_id_preserving (s : AppState) (f : Tab → Tab)
    (hf : ∀ u, (f u).id = u.id) (h : StoreWF s) :
    StoreWF { s with tabs := s.tabs.map f } := by
  obtain ⟨hnd, hids, u, hu, hact⟩ := h
  refine ⟨?_, ?_, ⟨f u, List.mem_map_of_mem f hu, ?_⟩⟩
  · show ((s.tabs.map f).map Tab.id).Nodup
    rw [List.map_map]
    have hcomp : Tab.id ∘ f = Tab.id := funext hf
    rw [hcomp]
    exact hnd
  · intro v hv
    obtain ⟨w, hw, rfl⟩ := List.mem_map.mp hv
    rw [hf]
    exact hids w hw
  · show s.activeTabId = some (f u).id
    rw [hf]
    exact hact

theorem storeWF_addNewTab (s : AppState) (newTabId : JSString)
    (hfresh : newTabId ∉ s.tabs.map Tab.id) (hne : newTabId ≠ [])
    (ih : StoreWF s) : StoreWF (addNewTab s newTabId) := by
  obtain ⟨hnd, hids, -⟩ := ih
  refine ⟨?_, ?_, ?_⟩
  · show ((s.tabs ++ [_]).map Tab.id).Nodup
    rw [List.map_append]
    refine List.Nodup.append hnd (List.nodup_singleton _) ?_
    intro a ha hb
    rw [List.map_singleton, List.mem_singleton] at hb
    have hb' : a = newTabId := hb
    exact hfresh (hb' ▸ ha)
  · intro u hu
    rcases List.mem_append.mp hu with hh | hh
    · exact hids u hh
    · rw [List.mem_singleton] at hh
      subst hh
      exact hne
  · exact ⟨_, List.mem_append_right _ (List.mem_singleton_self _), rfl⟩

theorem storeWF_closeTab (s : AppState) (tabId : JSString)
    (ih : StoreWF s) : StoreWF (closeTab s tabId) := by
  obtain ⟨hnd, hids, ua, hua, hact⟩ := ih
  by_cases hlen : s.tabs.length = 1
  · rw [show closeTab s tabId = s from by simp [closeTab, hlen]]
    exact ⟨hnd, hids, ua, hua, hact⟩
  · by_cases hmem : tabId ∈ s.tabs.map Tab.id
    · obtain ⟨t, ht, htid⟩ := List.mem_map.mp hmem
      subst htid
      obtain ⟨pre, post, hsplit⟩ := List.append_of_mem ht
      have hspec := closeTab_spec s pre post t hsplit hnd hids hlen
      refine ⟨?_, ?_, ?_⟩
      · rw [hspec.1]
        have hsub : List.Sublist ((pre ++ post).map Tab.id)
            (s.tabs.map Tab.id) := by
          rw [hsplit]
          exact ((List.sublist_cons_self t post).append_left pre).map Tab.id
        exact hnd.sublist hsub
      · intro u hu
        rw [hspec.1] at hu
        apply hids
        rw [hsplit]
        rcases List.mem_append.mp hu with hh | hh
        · exact List.mem_append_left _ hh
        · exact List.mem_append_right _ (List.mem_cons_of_mem _ hh)
      · by_cases hacteq : s.activeTabId = some t.id
        · rw [hspec.1, hspec.2.2 hacteq]
          cases hpe : pre.getLast? with
          | some u =>
            exact ⟨u, List.mem_append_left _
              (List.mem_of_getLast?_eq_some hpe), rfl⟩
          | none =>
            have hpnil : pre = [] := by simpa using hpe
            subst hpnil
            cases post with
            | nil =>
              exact absurd (by rw [hsplit]; rfl) hlen
            | cons v vs =>
              exact ⟨v, List.mem_append_right _ (List.mem_cons_self _ _), rfl⟩
        · rw [hspec.1, hspec.2.1 hacteq]
          refine ⟨ua, ?_, hact⟩
          rw [hsplit] at hua
          rcases List.mem_append.mp hua with hh | hh
          · exact List.mem_append_left _ hh
          · rcases List.mem_cons.mp hh with rfl | hh
            · exact absurd hact hacteq
            · exact List.mem_append_right _ hh
    · have hact_ne : ¬ s.activeTabId = some tabId := by
        intro hc
        apply hmem
        have : tabId = ua.id := Option.some.inj (hc.symm.trans hact)
        rw [this]
        exact List.mem_map_of_mem Tab.id hua
      have hfil : s.tabs.filter (fun tab => !decide (tab.id = tabId)) =
          s.tabs := by
        apply List.filter_eq_self.mpr
        intro u hu
        simp only [Bool.not_eq_true', decide_eq_false_iff_not]
        intro hc
        exact hmem (by rw [← hc]; exact List.mem_map_of_mem Tab.id hu)
      have htabs : (closeTab s tabId).tabs = s.tabs := by
        simp [closeTab, hlen, hfil]
      have hactid : (closeTab s tabId).activeTabId = s.activeTabId := by
        simp [closeTab, hlen, hact_ne]
      unfold StoreWF
      rw [htabs, hactid]
      exact ⟨hnd, hids, ua, hua, hact⟩

theorem storeWF_selectTab (s : AppState) (tabId : JSString)
    (hmem : tabId ∈ s.tabs.map Tab.id) (ih : StoreWF s) :
    StoreWF (selectTab s tabId) := by
  obtain ⟨hnd, hids, -⟩ := ih
  obtain ⟨u, hu, hid⟩ := List.mem_map.mp hmem
  exact ⟨hnd, hids, ⟨u, hu, by rw [← hid]; rfl⟩⟩

theorem storeWF_handleUtterance (s s2 : AppState)
    (transcriptText : JSString)
    (hstep : handleUtterance s transcriptText = some s2)
    (ih : StoreWF s) : StoreWF s2 := by
  unfold handleUtterance at hstep
  cases hfind : s.tabs.find?
      (fun tab => decide (some tab.id = s.activeTabId)) with
  | none =>
    rw [hfind] at hstep
    cases hstep
    exact ih
  | some currentTab =>
    rw [hfind] at hstep
    cases hcl : classify transcriptText with
    | command command =>
      rw [hcl] at hstep
      cases hstep
      exact storeWF_map_id_preserving s _
        (fun u => by by_cases hh : some u.id = s.activeTabId <;> simp [hh]) ih
    | commandErr =>
      rw [hcl] at hstep
      exact Option.noConfusion hstep
    | dictated T =>
      rw [hcl] at hstep
      cases hstep
      exact storeWF_map_id_preserving s _
        (fun u => by by_cases hh : some u.id = s.activeTabId <;> simp [hh]) ih

/-- Every reachable store state is well-formed; in particular the active
id always resolves. -/
theorem reachable_storeWF : ∀ s, Reachable s → StoreWF s := by
  intro s h
  induction h with
  | init =>
    exact ⟨by decide, by decide, ⟨_, List.mem_cons_self _ _, rfl⟩⟩
  | create s' newTabId hr hfresh hne ih =>
    exact storeWF_addNewTab s' newTabId hfresh hne ih
  | close s' tabId hr ih =>
    exact storeWF_closeTab s' tabId ih
  | rename s' tabId newTitle hr ih =>
    exact storeWF_map_id_preserving s' _
      (fun u => by by_cases hh : u.id = tabId <;> simp [hh]) ih
  | select s' tabId hr hmem ih =>
    exact storeWF_selectTab s' tabId hmem ih
  | update s' newContent hr ih =>
    exact storeWF_map_id_preserving s' _
      (fun u => by by_cases hh : some u.id = s'.activeTabId <;> simp [hh]) ih
  | restore s' a hr hact ih =>
    obtain ⟨hnd, hids, u, hu, hact2⟩ := ih
    refine ⟨hnd, hids, ⟨u, hu, ?_⟩⟩
    show some a = some u.id
    rw [← hact]
    exact hact2
  | voice s' s2 transcriptText hr hstep ih =>
    exact storeWF_handleUtterance s' s2 transcriptText hstep ih

/-- C6 counterexample: initialization reads the `tabs` and `activeTab`
cookies independently; a malformed `tabs` cookie falls back to the
default single tab while a surviving `activeTab` cookie is still
honored, producing an initialization state whose active id resolves to
no tab in the sequence. -/
theorem C6_counterexample :
    ¬ ∃ u ∈ (initState TabsCookie.malformed (some "2".toList)).tabs,
      (initState TabsCookie.malformed (some "2".toList)).activeTabId =
        some u.id := by decide

/-- C6 amended: in every state reachable through the app's own operation
— the default initial state, initialization from a cookie pair the app
itself persisted (written together from one state), create with a fresh
non-empty id, close, rename, select of an existing tab, content update,
and every completed utterance — the active id resolves to a tab present
in the sequence.  Initialization from an inconsistent cookie pair is not
covered and indeed breaks the invariant (see the counterexample); the UI
masks such states with the `|| tabs[0]` fallback at App.tsx line 74. -/
theorem C6_active_id_resolves (s : AppState) (h : Reachable s) :
    ∃ u ∈ s.tabs, s.activeTabId = some u.id :=
  (reachable_storeWF s h).2.2

/-- Witness for the amended C6: a state restored from the persisted
initial state resolves its active id. -/
theorem C6_active_id_resolves_witness :
    ∃ u ∈ (initState (TabsCookie.parsed initialState.tabs)
        (some "1".toList)).tabs,
      (initState (TabsCookie.parsed initialState.tabs)
        (some "1".toList)).activeTabId = some u.id :=
  C6_active_id_resolves _
    (Reachable.restore initialState "1".toList Reachable.init rfl)

end VoiceToText
